import Mathlib

/-!
Shallow embedding of the phone-number lease pool of this repository
(`apis/phone_manager.py` and `apis/sms_api.py`).

Timestamps are modelled as integers (the Python code uses `time.time()`
floats only in comparisons and subtractions, which translate verbatim).
Persistence (`_save_numbers`) is modelled by a save counter on the state.
Python string falsiness (`not all([...])`) is modelled as equality with
the empty string, the only falsy value of the string arguments used here.
-/

namespace PhonePool

/-- One entry of the pool `self.numbers`, mirroring the dict built in
`PhoneManager.add_number`. -/
structure NumberRecord where
  phone_number : String
  country_code : String
  activation_id : String
  first_used : Int
  last_used : Int
  services : List String
  times_used : Nat
  deriving DecidableEq, Repr

/-- The mutable state of a `PhoneManager`: the in-memory pool plus a count
of `_save_numbers` calls (persistence events). -/
structure PMState where
  numbers : List NumberRecord
  saves : Nat
  deriving DecidableEq, Repr

/-- `self.reuse_window = 30 * 60` (seconds), set in `PhoneManager.__init__`. -/
def reuse_window : Int := 30 * 60

/-- The body of the update branch of `add_number` / `mark_number_used`:
set `last_used`, increment `times_used`, append `service` if absent. -/
def touch (now : Int) (service : String) (r : NumberRecord) : NumberRecord :=
  { r with
    last_used := now
    times_used := r.times_used + 1
    services := if r.services.contains service then r.services else r.services ++ [service] }

/-- The `for number in self.numbers: if number["phone_number"] == phone_number`
update loop shared by `add_number` and `mark_number_used`: update the first
record with the given phone number, `none` if no record matches. -/
def updateExisting (now : Int) (service phone : String) :
    List NumberRecord → Option (List NumberRecord)
  | [] => none
  | r :: rs =>
    if r.phone_number = phone then
      some (touch now service r :: rs)
    else
      (updateExisting now service phone rs).map (r :: ·)

/-- `PhoneManager.add_number(phone_number, country_code, activation_id, service)`.
Returns the new state and the boolean result. -/
def add_number (s : PMState) (phone country activation service : String)
    (now : Int) : PMState × Bool :=
  if phone = "" ∨ country = "" ∨ activation = "" then
    (s, false)
  else
    match updateExisting now service phone s.numbers with
    | some ns => ({ numbers := ns, saves := s.saves + 1 }, true)
    | none =>
      let newRec : NumberRecord :=
        { phone_number := phone
          country_code := country
          activation_id := activation
          first_used := now
          last_used := now
          services := [service]
          times_used := 1 }
      ({ numbers := s.numbers ++ [newRec], saves := s.saves + 1 }, true)

/-- `PhoneManager.mark_number_used(phone_number, service)`. -/
def mark_number_used (s : PMState) (phone service : String) (now : Int) :
    PMState × Bool :=
  match updateExisting now service phone s.numbers with
  | some ns => ({ numbers := ns, saves := s.saves + 1 }, true)
  | none => (s, false)

/-- `PhoneManager._cleanup_expired_numbers`: keep records with
`current_time - first_used < reuse_window`, then save. -/
def cleanup_expired_numbers (s : PMState) (now : Int) : PMState :=
  { numbers := s.numbers.filter (fun r => decide (now - r.first_used < reuse_window))
    saves := s.saves + 1 }

/-- The per-record test of the bucketing loop in `get_reusable_number`:
inside the reuse window since last use, and not yet used for `service`. -/
def isCandidate (now : Int) (service : String) (r : NumberRecord) : Bool :=
  decide (now - r.last_used < reuse_window) && !(r.services.contains service)

/-- The mark-used step applied to the selected record inside
`get_reusable_number` (note: the `service` append is unconditional there). -/
def markUsed (now : Int) (service : String) (r : NumberRecord) : NumberRecord :=
  { r with
    last_used := now
    times_used := r.times_used + 1
    services := r.services ++ [service] }

/-- Replace the first occurrence of `old` in the list (the in-place dict
mutation of the selected record, seen through the aliased pool list). -/
def replaceFirst (old upd : NumberRecord) : List NumberRecord → List NumberRecord
  | [] => []
  | r :: rs => if r = old then upd :: rs else r :: replaceFirst old upd rs

/-- `candidates.sort(key=lambda x: x["times_used"])` followed by taking
`candidates[0]` (Python's sort is stable; `mergeSort` is as well). -/
def selectChosen (l : List NumberRecord) : Option NumberRecord :=
  (l.mergeSort (fun a b => decide (a.times_used ≤ b.times_used))).head?

/-- The country bucket of `get_reusable_number` for one country code:
candidates of that country, in pool order. -/
def bucket (s : PMState) (now : Int) (service country : String) : List NumberRecord :=
  s.numbers.filter (fun r => isCandidate now service r && r.country_code == country)

/-- The fallback loop of `get_reusable_number` over
`priority_order = ["151", "224", "156", "225"]`. -/
def tryCountries (s : PMState) (now : Int) (service : String) :
    List String → PMState × Option NumberRecord
  | [] => (s, none)
  | c :: cs =>
    match selectChosen (bucket s now service c) with
    | some sel =>
      ({ numbers := replaceFirst sel (markUsed now service sel) s.numbers,
         saves := s.saves + 1 }, some (markUsed now service sel))
    | none => tryCountries s now service cs

/-- `PhoneManager.get_reusable_number(service)`: cleanup, bucket Brazilian
("73") candidates and the four other bucketed countries, pick the
least-used Brazilian first, otherwise fall through the priority order.
Records whose country is in none of the buckets are never considered. -/
def get_reusable_number (s : PMState) (service : String) (now : Int) :
    PMState × Option NumberRecord :=
  match selectChosen (bucket (cleanup_expired_numbers s now) now service "73") with
  | some sel =>
    ({ numbers := replaceFirst sel (markUsed now service sel)
         (cleanup_expired_numbers s now).numbers,
       saves := (cleanup_expired_numbers s now).saves + 1 },
     some (markUsed now service sel))
  | none =>
    tryCountries (cleanup_expired_numbers s now) now service
      ["151", "224", "156", "225"]

/-- Outcome of one invocation of the wrapped function inside
`execute_with_retry`: a value, a `None` result, a connection-class
exception (`ConnectionError`/`Timeout`/`RequestException`), or any other
exception. -/
inductive CallOutcome (α : Type) where
  | ok : α → CallOutcome α
  | noneResult : CallOutcome α
  | connError : CallOutcome α
  | otherError : CallOutcome α
  deriving DecidableEq, Repr

/-- What `execute_with_retry` can return: the wrapped function's value, the
literal `{}` of the final `return {}` line, or the literal `0` of the
`None`-result branch (`isinstance(func, dict)` is always `False` for a
function, so that branch always yields `0`). -/
inductive RetryResult (α : Type) where
  | value : α → RetryResult α
  | emptyDict : RetryResult α
  | zero : RetryResult α
  deriving DecidableEq, Repr

/-- `PhoneManager.execute_with_retry(func, max_retries, retry_delay)`.
The wrapped function's behaviour is given as a trace of outcomes, one per
invocation. Returns (result, number of invocations, number of
`time.sleep(retry_delay)` calls). A connection-class failure sleeps and
retries only when it is not the last attempt; any other exception breaks
out of the loop; falling off the loop returns `{}` unconditionally. -/
def execute_with_retry {α : Type} : List (CallOutcome α) → Nat →
    RetryResult α × Nat × Nat
  | _, 0 => (.emptyDict, 0, 0)
  | trace, n + 1 =>
    match trace.headD .otherError with
    | .ok a => (.value a, 1, 0)
    | .noneResult => (.zero, 1, 0)
    | .connError =>
      if n = 0 then (.emptyDict, 1, 0)
      else
        let (r, c, sl) := execute_with_retry trace.tail n
        (r, c + 1, sl + 1)
    | .otherError => (.emptyDict, 1, 0)

/-- Result of the forced-Brazil loop of `buy_number_with_retry`:
a successful purchase `(activation_id, phone_number)`, or falling through
to the alternative country. -/
inductive GoOutcome where
  | success : String → String → GoOutcome
  | fallback : GoOutcome
  deriving DecidableEq, Repr

/-- A provider purchase attempt: the country code passed to
`sms_api.get_number`, and its validated result (`some (activation_id,
phone_number)` when both came back truthy, `none` otherwise). -/
abbrev Attempt := String × Option (String × String)

/-- The `for attempt in range(max_brazil_attempts)` loop of
`buy_number_with_retry` for `service == "go"`. `avail` is the trace of
availability figures produced by the wrapped `check_brazil` calls (one per
iteration; `check_brazil` swallows exceptions and returns 0, so its retry
wrapper always passes its first value through); `buys` is the trace of
validated `buy_brazilian` results for iterations that reach a purchase.
Returns (iterations executed, purchase attempts made, outcome). A
non-positive availability figure makes the iteration `continue` without a
purchase; a failed purchase also falls through to the next iteration. -/
def brazilLoop : List Int → List (Option (String × String)) → Nat →
    Nat × List Attempt × GoOutcome
  | _, _, 0 => (0, [], .fallback)
  | avail, buys, n + 1 =>
    if avail.headD 0 ≤ 0 then
      let (it, atts, r) := brazilLoop avail.tail buys n
      (it + 1, atts, r)
    else
      match buys.headD none with
      | some pr => (1, [("73", some pr)], .success pr.1 pr.2)
      | none =>
        let (it, atts, r) := brazilLoop avail.tail buys.tail n
        (it + 1, ("73", none) :: atts, r)

/-- `PhoneManager.buy_number(service, country)` for `service == "go"`
(`force_brazil` is true). Each call consumes one Brazil availability
figure and makes exactly one `sms_api.get_number` call on the chosen
country; on a failed purchase with Brazil chosen and a distinct
alternative available it recurses with the same arguments. `fuel` bounds
the recursion depth (the Python recursion is unbounded by design; every
theorem below holds for every fuel). Returns (purchase attempts, result). -/
def chooseCountry (avail : List Int) (country : String) : String :=
  if 0 < avail.headD 0 then "73" else country

def buy_number_go : List Int → List (Option (String × String)) → String → Nat →
    List Attempt × Option (String × String)
  | _, _, _, 0 => ([], none)
  | avail, buys, country, fuel + 1 =>
    match buys.headD none with
    | some pr => ([(chooseCountry avail country, some pr)], some pr)
    | none =>
      if chooseCountry avail country = "73" ∧ country ≠ "73" then
        ((chooseCountry avail country, none) ::
            (buy_number_go avail.tail buys.tail country fuel).1,
         (buy_number_go avail.tail buys.tail country fuel).2)
      else
        ([(chooseCountry avail country, none)], none)

/-- `PhoneManager.buy_number_with_retry(service="go", country,
max_brazil_attempts)`: the forced-Brazil loop, then on fallback the
`buy_number` call on the alternative country. The two phases consume
separate traces. Returns (Brazil iterations, all purchase attempts,
result). -/
def buy_number_with_retry_go (availB : List Int)
    (buysB : List (Option (String × String))) (availN : List Int)
    (buysN : List (Option (String × String))) (country : String)
    (maxAttempts fuel : Nat) : Nat × List Attempt × Option (String × String) :=
  match brazilLoop availB buysB maxAttempts with
  | (it, atts, .success a p) => (it, atts, some (a, p))
  | (it, atts, .fallback) =>
    (it, atts ++ (buy_number_go availN buysN country fuel).1,
     (buy_number_go availN buysN country fuel).2)

/-- Outcome of one poll iteration of `SMSAPI.get_sms_code`: HTTP 200 with
`STATUS_OK:<code>`, HTTP 200 with `STATUS_CANCEL`, or anything else
(other text, non-200 status, or an exception). -/
inductive PollOutcome where
  | okCode : String → PollOutcome
  | cancelled : PollOutcome
  | other : PollOutcome
  deriving DecidableEq, Repr

/-- `SMSAPI.get_sms_code(activation_id, max_attempts, interval)`. The
remote's behaviour is a trace of poll outcomes, one per attempt. Returns
the code (or `none`) together with the list of `set_status` codes issued:
`[3]` after a received code, `[6]` after exhausting all attempts, `[]` on
remote cancellation (which returns immediately). -/
def get_sms_code : List PollOutcome → Nat → Option String × List Nat
  | _, 0 => (none, [6])
  | trace, n + 1 =>
    match trace.headD .other with
    | .okCode c => (some c, [3])
    | .cancelled => (none, [])
    | .other => get_sms_code trace.tail n

/-- True on the poll outcomes that terminate the loop. -/
def isSignal : PollOutcome → Bool
  | .other => false
  | _ => true

/-- The polling contract as the spec words it: the first terminating
signal within `max_attempts` polls decides the result — a code marks
status 3 and is returned, a cancellation returns none immediately, and no
signal at all marks status 6 and returns none. -/
def get_sms_code_spec (trace : List PollOutcome) (n : Nat) :
    Option String × List Nat :=
  match (trace.take n).find? isSignal with
  | some (.okCode c) => (some c, [3])
  | some .cancelled => (none, [])
  | _ => (none, [6])

/-- The country codes that `get_reusable_number` buckets: Brazil plus the
four fallback countries of its `priority_order`. -/
def reuseCountries : List String := ["73", "151", "224", "156", "225"]

/-- Total of `times_used` over the pool. -/
def usesSum (s : PMState) : Nat := (s.numbers.map (·.times_used)).sum

section Helpers

theorem selectChosen_mem {l : List NumberRecord} {r : NumberRecord}
    (h : selectChosen l = some r) : r ∈ l := by
  rcases List.head?_eq_some_iff.1 h with ⟨ys, hys⟩
  have hperm := List.mergeSort_perm l (fun a b => decide (a.times_used ≤ b.times_used))
  exact hperm.mem_iff.1 (hys ▸ List.mem_cons_self ..)

theorem selectChosen_isSome_iff {l : List NumberRecord} :
    (selectChosen l).isSome ↔ l ≠ [] := by
  rw [selectChosen, List.head?_isSome]
  constructor
  · intro h hc
    subst hc
    simp at h
  · intro h hc
    exact h ((hc ▸ List.mergeSort_perm l
      (fun a b => decide (a.times_used ≤ b.times_used)) :
        List.Perm [] l).symm.eq_nil)

theorem selectChosen_eq_none {l : List NumberRecord}
    (h : selectChosen l = none) : l = [] := by
  by_contra hc
  have := selectChosen_isSome_iff.2 hc
  rw [h] at this
  simp at this

theorem mem_bucket {s : PMState} {now : Int} {service c : String}
    {r : NumberRecord} :
    r ∈ bucket s now service c ↔
      r ∈ s.numbers ∧ isCandidate now service r = true ∧ r.country_code = c := by
  simp [bucket, List.mem_filter, and_assoc]

theorem replaceFirst_decomp (upd : NumberRecord) :
    ∀ {l : List NumberRecord} {old : NumberRecord}, old ∈ l →
    ∃ l1 l2, l = l1 ++ old :: l2 ∧ replaceFirst old upd l = l1 ++ upd :: l2 := by
  intro l
  induction l with
  | nil => intro old h; simp at h
  | cons a as ih =>
    intro old h
    by_cases ha : a = old
    · subst ha
      exact ⟨[], as, rfl, by simp [replaceFirst]⟩
    · have hmem : old ∈ as := by
        rcases List.mem_cons.1 h with h1 | h1
        · exact absurd h1.symm ha
        · exact h1
      rcases ih hmem with ⟨l1, l2, hl, hr⟩
      exact ⟨a :: l1, l2, by simp [hl], by simp [replaceFirst, ha, hr]⟩

theorem updateExisting_eq_some {now : Int} {service phone : String} :
    ∀ {l l' : List NumberRecord}, updateExisting now service phone l = some l' →
    ∃ l1 r l2, l = l1 ++ r :: l2 ∧ r.phone_number = phone ∧
      l' = l1 ++ touch now service r :: l2 := by
  intro l
  induction l with
  | nil => intro l' h; simp [updateExisting] at h
  | cons a as ih =>
    intro l' h
    rw [updateExisting] at h
    by_cases ha : a.phone_number = phone
    · rw [if_pos ha] at h
      exact ⟨[], a, as, rfl, ha, by simpa using h.symm⟩
    · rw [if_neg ha] at h
      rcases Option.map_eq_some'.1 h with ⟨as', has', rfl⟩
      rcases ih has' with ⟨l1, r, l2, hl, hp, hl'⟩
      exact ⟨a :: l1, r, l2, by simp [hl], hp, by simp [hl']⟩

theorem touch_nodup {now : Int} {service : String} {r : NumberRecord}
    (h : r.services.Nodup) : (touch now service r).services.Nodup := by
  rw [touch]
  by_cases hc : service ∈ r.services
  · simpa [hc] using h
  · simp [hc, List.nodup_append, h]

theorem touch_times_used (now : Int) (service : String) (r : NumberRecord) :
    (touch now service r).times_used = r.times_used + 1 := rfl

theorem markUsed_times_used (now : Int) (service : String) (r : NumberRecord) :
    (markUsed now service r).times_used = r.times_used + 1 := rfl

theorem isCandidate_not_mem {now : Int} {service : String} {r : NumberRecord}
    (h : isCandidate now service r = true) : service ∉ r.services := by
  intro hm
  rw [isCandidate, Bool.and_eq_true] at h
  have h2 := h.2
  simp at h2
  exact h2 hm

theorem mem_cleanup {s : PMState} {now : Int} {r : NumberRecord} :
    r ∈ (cleanup_expired_numbers s now).numbers ↔
      r ∈ s.numbers ∧ now - r.first_used < reuse_window := by
  simp [cleanup_expired_numbers, List.mem_filter]

theorem tryCountries_cons_some {s : PMState} {now : Int} {service c : String}
    {cs : List String} {sel : NumberRecord}
    (hsel : selectChosen (bucket s now service c) = some sel) :
    tryCountries s now service (c :: cs) =
      ({ numbers := replaceFirst sel (markUsed now service sel) s.numbers,
         saves := s.saves + 1 }, some (markUsed now service sel)) := by
  rw [tryCountries, hsel]

theorem tryCountries_cons_none {s : PMState} {now : Int} {service c : String}
    {cs : List String}
    (hsel : selectChosen (bucket s now service c) = none) :
    tryCountries s now service (c :: cs) = tryCountries s now service cs := by
  rw [tryCountries, hsel]

theorem tryCountries_some {s : PMState} {now : Int} {service : String} :
    ∀ {cs : List String} {u : NumberRecord},
      (tryCountries s now service cs).2 = some u →
      ∃ c ∈ cs, ∃ sel ∈ bucket s now service c,
        u = markUsed now service sel ∧
        tryCountries s now service cs =
          ({ numbers := replaceFirst sel u s.numbers, saves := s.saves + 1 },
           some u) := by
  intro cs
  induction cs with
  | nil => intro u h; simp [tryCountries] at h
  | cons c cs ih =>
    intro u h
    cases hsel : selectChosen (bucket s now service c) with
    | some sel =>
      rw [tryCountries_cons_some hsel] at h
      have hu : markUsed now service sel = u := Option.some_inj.mp h
      refine ⟨c, List.mem_cons_self .., sel, selectChosen_mem hsel, hu.symm, ?_⟩
      rw [tryCountries_cons_some hsel, hu]
    | none =>
      rw [tryCountries_cons_none hsel] at h
      rcases ih h with ⟨c', hc', sel, hsel', hu, heq⟩
      exact ⟨c', List.mem_cons_of_mem _ hc', sel, hsel', hu,
        (tryCountries_cons_none hsel).trans heq⟩

theorem tryCountries_isSome_iff {s : PMState} {now : Int} {service : String} :
    ∀ {cs : List String},
      (tryCountries s now service cs).2.isSome ↔
        ∃ c ∈ cs, bucket s now service c ≠ [] := by
  intro cs
  induction cs with
  | nil => simp [tryCountries]
  | cons c cs ih =>
    cases hsel : selectChosen (bucket s now service c) with
    | some sel =>
      rw [tryCountries_cons_some hsel]
      simp only [Option.isSome_some, true_iff]
      exact ⟨c, List.mem_cons_self ..,
        List.ne_nil_of_mem (selectChosen_mem hsel)⟩
    | none =>
      have hempty := selectChosen_eq_none hsel
      rw [tryCountries_cons_none hsel, ih]
      constructor
      · rintro ⟨c', hc', hb⟩
        exact ⟨c', List.mem_cons_of_mem _ hc', hb⟩
      · rintro ⟨c', hc', hb⟩
        rcases List.mem_cons.1 hc' with rfl | hc'
        · exact absurd hempty hb
        · exact ⟨c', hc', hb⟩

theorem tryCountries_none_state {s : PMState} {now : Int} {service : String} :
    ∀ {cs : List String},
      (tryCountries s now service cs).2 = none →
      (tryCountries s now service cs).1 = s := by
  intro cs
  induction cs with
  | nil => intro _; rfl
  | cons c cs ih =>
    intro h
    cases hsel : selectChosen (bucket s now service c) with
    | some sel =>
      rw [tryCountries_cons_some hsel] at h
      exact Option.noConfusion h
    | none =>
      rw [tryCountries_cons_none hsel] at h ⊢
      exact ih h

/-- Structure of every successful return of `get_reusable_number`: the
selected record sits in the pruned pool, passes the candidate test, has a
bucketed country code, and is returned and written back marked used, with
one extra save beyond the cleanup save. -/
theorem get_reusable_some_spec {s : PMState} {service : String} {now : Int}
    {u : NumberRecord}
    (h : (get_reusable_number s service now).2 = some u) :
    ∃ sel l1 l2,
      (cleanup_expired_numbers s now).numbers = l1 ++ sel :: l2 ∧
      isCandidate now service sel = true ∧
      sel.country_code ∈ reuseCountries ∧
      u = markUsed now service sel ∧
      (get_reusable_number s service now).1.numbers = l1 ++ u :: l2 ∧
      (get_reusable_number s service now).1.saves = s.saves + 2 := by
  cases hsel : selectChosen
      (bucket (cleanup_expired_numbers s now) now service "73") with
  | some sel =>
    have hfn : get_reusable_number s service now =
        ({ numbers := replaceFirst sel (markUsed now service sel)
             (cleanup_expired_numbers s now).numbers,
           saves := (cleanup_expired_numbers s now).saves + 1 },
         some (markUsed now service sel)) := by
      rw [get_reusable_number, hsel]
    rw [hfn] at h
    simp only [Option.some_inj] at h
    have hb := mem_bucket.1 (selectChosen_mem hsel)
    rcases replaceFirst_decomp (markUsed now service sel) hb.1 with
      ⟨l1, l2, hsplit, hrep⟩
    refine ⟨sel, l1, l2, hsplit, hb.2.1, ?_, h.symm, ?_, ?_⟩
    · rw [hb.2.2]; simp [reuseCountries]
    · rw [hfn, ← h]; exact hrep
    · rw [hfn]; simp [cleanup_expired_numbers]
  | none =>
    have hfn : get_reusable_number s service now =
        tryCountries (cleanup_expired_numbers s now) now service
          ["151", "224", "156", "225"] := by
      rw [get_reusable_number, hsel]
    rw [hfn] at h
    rcases tryCountries_some h with ⟨c, hc, sel, hselb, hu, heq⟩
    have hb := mem_bucket.1 hselb
    rcases replaceFirst_decomp u hb.1 with ⟨l1, l2, hsplit, hrep⟩
    refine ⟨sel, l1, l2, hsplit, hb.2.1, ?_, hu, ?_, ?_⟩
    · rw [hb.2.2]
      simp only [reuseCountries]
      simp only [List.mem_cons, List.not_mem_nil, or_false] at hc
      rcases hc with rfl | rfl | rfl | rfl <;> simp
    · rw [hfn, heq]
      exact hrep
    · rw [hfn, heq]
      simp [cleanup_expired_numbers]

/-- `get_reusable_number` finds a lease exactly when some pruned record is
a candidate for one of the five bucketed country codes. -/
theorem get_reusable_isSome_iff {s : PMState} {service : String} {now : Int} :
    (get_reusable_number s service now).2.isSome ↔
      ∃ r ∈ (cleanup_expired_numbers s now).numbers,
        isCandidate now service r = true ∧ r.country_code ∈ reuseCountries := by
  cases hsel : selectChosen
      (bucket (cleanup_expired_numbers s now) now service "73") with
  | some sel =>
    have hfn : get_reusable_number s service now =
        ({ numbers := replaceFirst sel (markUsed now service sel)
             (cleanup_expired_numbers s now).numbers,
           saves := (cleanup_expired_numbers s now).saves + 1 },
         some (markUsed now service sel)) := by
      rw [get_reusable_number, hsel]
    rw [hfn]
    simp only [Option.isSome_some, true_iff]
    have hb := mem_bucket.1 (selectChosen_mem hsel)
    exact ⟨sel, hb.1, hb.2.1, by rw [hb.2.2]; simp [reuseCountries]⟩
  | none =>
    have hfn : get_reusable_number s service now =
        tryCountries (cleanup_expired_numbers s now) now service
          ["151", "224", "156", "225"] := by
      rw [get_reusable_number, hsel]
    have hempty := selectChosen_eq_none hsel
    rw [hfn, tryCountries_isSome_iff]
    constructor
    · rintro ⟨c, hc, hb⟩
      rcases List.exists_mem_of_ne_nil _ hb with ⟨r, hr⟩
      have hm := mem_bucket.1 hr
      refine ⟨r, hm.1, hm.2.1, ?_⟩
      rw [hm.2.2]
      simp only [List.mem_cons, List.not_mem_nil, or_false] at hc
      simp only [reuseCountries, List.mem_cons, List.not_mem_nil, or_false]
      tauto
    · rintro ⟨r, hr, hcand, hc⟩
      simp only [reuseCountries, List.mem_cons, List.not_mem_nil, or_false] at hc
      rcases hc with h73 | hc'
      · exact absurd (hempty ▸ mem_bucket.2 ⟨hr, hcand, h73⟩) (List.not_mem_nil _)
      · have : r ∈ bucket (cleanup_expired_numbers s now) now service
            r.country_code := mem_bucket.2 ⟨hr, hcand, rfl⟩
        refine ⟨r.country_code, ?_, List.ne_nil_of_mem this⟩
        simp only [List.mem_cons, List.not_mem_nil, or_false]
        tauto

theorem isCandidate_iff {now : Int} {service : String} {r : NumberRecord} :
    isCandidate now service r = true ↔
      now - r.last_used < reuse_window ∧ service ∉ r.services := by
  simp [isCandidate]

theorem selectChosen_nil : selectChosen [] = none := by
  simp [selectChosen]

theorem selectChosen_singleton (r : NumberRecord) : selectChosen [r] = some r := by
  simp [selectChosen]

/-- A Brazilian pool entry never used for "go". -/
def brRecord : NumberRecord :=
  { phone_number := "5511999990000", country_code := "73"
    activation_id := "901", first_used := 100, last_used := 100
    services := ["wa"], times_used := 1 }

/-- A pool holding only `brRecord`. -/
def brState : PMState := { numbers := [brRecord], saves := 0 }

/-- Concrete evaluation of a reuse hit on the one-record Brazilian pool. -/
theorem get_reusable_brState :
    get_reusable_number brState "go" 100 =
      ({ numbers := [markUsed 100 "go" brRecord], saves := 2 },
       some (markUsed 100 "go" brRecord)) := by
  have hb : bucket (cleanup_expired_numbers brState 100) 100 "go" "73" =
      [brRecord] := by decide
  have hsel : selectChosen
      (bucket (cleanup_expired_numbers brState 100) 100 "go" "73") =
      some brRecord := by
    rw [hb]; exact selectChosen_singleton brRecord
  rw [get_reusable_number, hsel]
  decide

end Helpers

section ClaimC1

/-- A pool entry outside the bucketed countries (United States, code
"187"), fresh and never used for "go": it qualifies on both of the
claim's reuse conditions. -/
def usRecord : NumberRecord :=
  { phone_number := "15550001111", country_code := "187"
    activation_id := "900", first_used := 100, last_used := 100
    services := ["wa"], times_used := 1 }

/-- A pool holding only `usRecord`. -/
def usState : PMState := { numbers := [usRecord], saves := 0 }

/-- C1 counterexample: after pruning, `usRecord` satisfies
`service ∉ services_used` and `now - last_used_at < reuse_window`, yet
`get_reusable_number` returns none — its country code "187" is in none of
the buckets the function considers, so the claim's "returns none only when
no lease qualifies under those two conditions" is false. -/
theorem get_reusable_misses_qualifying_lease :
    (get_reusable_number usState "go" 100).2 = none ∧
    usRecord ∈ (cleanup_expired_numbers usState 100).numbers ∧
    (100 : Int) - usRecord.last_used < reuse_window ∧
    "go" ∉ usRecord.services := by
  refine ⟨?_, by decide, by decide, by decide⟩
  have h : ¬ (get_reusable_number usState "go" 100).2.isSome := by
    rw [get_reusable_isSome_iff]
    decide
  exact Option.not_isSome_iff_eq_none.1 h

/-- C1 amended: `get_reusable_number` returns a lease iff some pruned
lease satisfies the two conditions AND carries one of the five bucketed
country codes ("73", "151", "224", "156", "225"); a returned lease is such
a lease after marking used, with the pool persisted (cleanup save plus
selection save). -/
theorem get_reusable_number_amended (s : PMState) (service : String)
    (now : Int) :
    ((get_reusable_number s service now).2.isSome ↔
      ∃ r ∈ (cleanup_expired_numbers s now).numbers,
        (now - r.last_used < reuse_window ∧ service ∉ r.services) ∧
        r.country_code ∈ reuseCountries) ∧
    ∀ u, (get_reusable_number s service now).2 = some u →
      ∃ r ∈ (cleanup_expired_numbers s now).numbers,
        (now - r.last_used < reuse_window ∧ service ∉ r.services) ∧
        r.country_code ∈ reuseCountries ∧
        u = markUsed now service r ∧
        (get_reusable_number s service now).1.saves = s.saves + 2 := by
  constructor
  · rw [get_reusable_isSome_iff]
    exact exists_congr fun r => and_congr_right fun _ =>
      and_congr_left fun _ => isCandidate_iff
  · intro u h
    rcases get_reusable_some_spec h with
      ⟨sel, l1, l2, hsplit, hcand, hctry, hu, _, hsaves⟩
    exact ⟨sel, by rw [hsplit]; simp, isCandidate_iff.1 hcand, hctry, hu, hsaves⟩

/-- Witness for the amended C1 at a concrete reusable pool. -/
theorem get_reusable_number_amended_witness :
    ∃ r ∈ (cleanup_expired_numbers brState 100).numbers,
      ((100 : Int) - r.last_used < reuse_window ∧ "go" ∉ r.services) ∧
      r.country_code ∈ reuseCountries ∧
      markUsed 100 "go" brRecord = markUsed 100 "go" r ∧
      (get_reusable_number brState "go" 100).1.saves = brState.saves + 2 :=
  (get_reusable_number_amended brState "go" 100).2
    (markUsed 100 "go" brRecord) (by rw [get_reusable_brState])

end ClaimC1

section ClaimC2

/-- C2: whenever `get_reusable_number` returns a lease, that lease did not
have `service` among its used services at the moment of selection: the
return value is the marked-used image of a pruned pool record that did not
contain `service`. -/
theorem get_reusable_number_fresh_service (s : PMState) (service : String)
    (now : Int) (u : NumberRecord)
    (h : (get_reusable_number s service now).2 = some u) :
    ∃ r ∈ (cleanup_expired_numbers s now).numbers,
      service ∉ r.services ∧ u = markUsed now service r := by
  rcases get_reusable_some_spec h with
    ⟨sel, l1, l2, hsplit, hcand, _, hu, _, _⟩
  exact ⟨sel, by rw [hsplit]; simp, isCandidate_not_mem hcand, hu⟩

/-- Witness for C2 at a concrete reusable pool. -/
theorem get_reusable_number_fresh_service_witness :
    ∃ r ∈ (cleanup_expired_numbers brState 100).numbers,
      "go" ∉ r.services ∧ markUsed 100 "go" brRecord = markUsed 100 "go" r :=
  get_reusable_number_fresh_service brState "go" 100
    (markUsed 100 "go" brRecord) (by rw [get_reusable_brState])

end ClaimC2

section HelpersC4

theorem get_reusable_eq_none_branch {s : PMState} {service : String} {now : Int}
    (hsel : selectChosen
      (bucket (cleanup_expired_numbers s now) now service "73") = none) :
    get_reusable_number s service now =
      tryCountries (cleanup_expired_numbers s now) now service
        ["151", "224", "156", "225"] := by
  rw [get_reusable_number, hsel]

theorem get_reusable_none_state {s : PMState} {service : String} {now : Int}
    (h : (get_reusable_number s service now).2 = none) :
    (get_reusable_number s service now).1 = cleanup_expired_numbers s now := by
  cases hsel : selectChosen
      (bucket (cleanup_expired_numbers s now) now service "73") with
  | some sel =>
    have hfn : get_reusable_number s service now =
        ({ numbers := replaceFirst sel (markUsed now service sel)
             (cleanup_expired_numbers s now).numbers,
           saves := (cleanup_expired_numbers s now).saves + 1 },
         some (markUsed now service sel)) := by
      rw [get_reusable_number, hsel]
    rw [hfn] at h
    exact Option.noConfusion h
  | none =>
    rw [get_reusable_eq_none_branch hsel] at h ⊢
    exact tryCountries_none_state h

theorem add_number_update {s : PMState}
    {phone country activation service : String} {now : Int}
    {ns : List NumberRecord}
    (hval : ¬ (phone = "" ∨ country = "" ∨ activation = ""))
    (hup : updateExisting now service phone s.numbers = some ns) :
    add_number s phone country activation service now =
      ({ numbers := ns, saves := s.saves + 1 }, true) := by
  rw [add_number, if_neg hval, hup]

theorem add_number_append {s : PMState}
    {phone country activation service : String} {now : Int}
    (hval : ¬ (phone = "" ∨ country = "" ∨ activation = ""))
    (hup : updateExisting now service phone s.numbers = none) :
    add_number s phone country activation service now =
      ({ numbers := s.numbers ++
          [{ phone_number := phone, country_code := country
             activation_id := activation, first_used := now, last_used := now
             services := [service], times_used := 1 }]
         saves := s.saves + 1 }, true) := by
  rw [add_number, if_neg hval, hup]

theorem mark_number_used_update {s : PMState} {phone service : String}
    {now : Int} {ns : List NumberRecord}
    (hup : updateExisting now service phone s.numbers = some ns) :
    mark_number_used s phone service now =
      ({ numbers := ns, saves := s.saves + 1 }, true) := by
  rw [mark_number_used, hup]

theorem mark_number_used_miss {s : PMState} {phone service : String}
    {now : Int}
    (hup : updateExisting now service phone s.numbers = none) :
    mark_number_used s phone service now = (s, false) := by
  rw [mark_number_used, hup]

theorem markUsed_nodup {now : Int} {service : String} {r : NumberRecord}
    (h : r.services.Nodup) (hm : service ∉ r.services) :
    (markUsed now service r).services.Nodup := by
  simp [markUsed, List.nodup_append, h, hm]

theorem usesSum_split (l1 l2 : List NumberRecord) (a b : NumberRecord)
    (h : b.times_used = a.times_used + 1) :
    ((l1 ++ b :: l2).map (·.times_used)).sum =
      ((l1 ++ a :: l2).map (·.times_used)).sum + 1 := by
  simp only [List.map_append, List.map_cons, List.sum_append, List.sum_cons, h]
  omega

theorem updateExisting_nodup {now : Int} {service phone : String}
    {l l' : List NumberRecord}
    (hup : updateExisting now service phone l = some l')
    (hinv : ∀ r ∈ l, r.services.Nodup) : ∀ r ∈ l', r.services.Nodup := by
  rcases updateExisting_eq_some hup with ⟨l1, x, l2, hl, _, hl'⟩
  subst hl'
  intro r hr
  rcases List.mem_append.1 hr with h1 | h1
  · exact hinv r (by rw [hl]; exact List.mem_append_left _ h1)
  · rcases List.mem_cons.1 h1 with h2 | h2
    · subst h2
      exact touch_nodup (hinv x (by rw [hl]; simp))
    · exact hinv r (by rw [hl]; simp [h2])

theorem updateExisting_usesSum {now : Int} {service phone : String}
    {l l' : List NumberRecord}
    (hup : updateExisting now service phone l = some l') :
    (l'.map (·.times_used)).sum = (l.map (·.times_used)).sum + 1 := by
  rcases updateExisting_eq_some hup with ⟨l1, x, l2, hl, _, hl'⟩
  subst hl' hl
  exact usesSum_split l1 l2 x (touch now service x) rfl

end HelpersC4

section ClaimC4

/-- C4: each lease-mutating operation (`add_number`, `mark_number_used`,
and the mark-used step inside `get_reusable_number`) preserves the
invariant that no record's services list has duplicates, and every
successful call raises the pool's total `times_used` by exactly one
(for `get_reusable_number`, relative to the pruned pool it selects from);
the touched record itself gains exactly one use. -/
theorem mutators_preserve_invariants (s : PMState)
    (phone country activation service : String) (now : Int)
    (hinv : ∀ r ∈ s.numbers, r.services.Nodup) :
    (∀ r ∈ (add_number s phone country activation service now).1.numbers,
      r.services.Nodup) ∧
    ((add_number s phone country activation service now).2 = true →
      usesSum (add_number s phone country activation service now).1 =
        usesSum s + 1) ∧
    (∀ r ∈ (mark_number_used s phone service now).1.numbers,
      r.services.Nodup) ∧
    ((mark_number_used s phone service now).2 = true →
      usesSum (mark_number_used s phone service now).1 = usesSum s + 1) ∧
    (∀ r ∈ (get_reusable_number s service now).1.numbers,
      r.services.Nodup) ∧
    ((get_reusable_number s service now).2.isSome →
      usesSum (get_reusable_number s service now).1 =
        usesSum (cleanup_expired_numbers s now) + 1) ∧
    (∀ r, (touch now service r).times_used = r.times_used + 1) ∧
    (∀ r, (markUsed now service r).times_used = r.times_used + 1) := by
  refine ⟨?_, ?_, ?_, ?_, ?_, ?_, fun r => rfl, fun r => rfl⟩
  · by_cases hval : phone = "" ∨ country = "" ∨ activation = ""
    · rw [add_number, if_pos hval]
      exact hinv
    · cases hup : updateExisting now service phone s.numbers with
      | some ns =>
        rw [add_number_update hval hup]
        exact updateExisting_nodup hup hinv
      | none =>
        rw [add_number_append hval hup]
        intro r hr
        rcases List.mem_append.1 hr with h1 | h1
        · exact hinv r h1
        · simp only [List.mem_singleton] at h1
          subst h1
          simp
  · by_cases hval : phone = "" ∨ country = "" ∨ activation = ""
    · rw [add_number, if_pos hval]
      intro h
      exact absurd h (by simp)
    · cases hup : updateExisting now service phone s.numbers with
      | some ns =>
        rw [add_number_update hval hup]
        intro _
        exact updateExisting_usesSum hup
      | none =>
        rw [add_number_append hval hup]
        intro _
        simp [usesSum]
  · cases hup : updateExisting now service phone s.numbers with
    | some ns =>
      rw [mark_number_used_update hup]
      exact updateExisting_nodup hup hinv
    | none =>
      rw [mark_number_used_miss hup]
      exact hinv
  · cases hup : updateExisting now service phone s.numbers with
    | some ns =>
      rw [mark_number_used_update hup]
      intro _
      exact updateExisting_usesSum hup
    | none =>
      rw [mark_number_used_miss hup]
      intro h
      exact absurd h (by simp)
  · cases hres : (get_reusable_number s service now).2 with
    | none =>
      rw [get_reusable_none_state hres]
      intro r hr
      exact hinv r (mem_cleanup.1 hr).1
    | some u =>
      rcases get_reusable_some_spec hres with
        ⟨sel, l1, l2, hsplit, hcand, _, hu, hnum, _⟩
      rw [hnum]
      intro r hr
      have hmemc : ∀ x ∈ (cleanup_expired_numbers s now).numbers,
          x.services.Nodup := fun x hx => hinv x (mem_cleanup.1 hx).1
      rcases List.mem_append.1 hr with h1 | h1
      · exact hmemc r (by rw [hsplit]; exact List.mem_append_left _ h1)
      · rcases List.mem_cons.1 h1 with h2 | h2
        · subst h2
          rw [hu]
          exact markUsed_nodup (hmemc sel (by rw [hsplit]; simp))
            (isCandidate_not_mem hcand)
        · exact hmemc r (by rw [hsplit]; simp [h2])
  · intro hs
    rcases Option.isSome_iff_exists.1 hs with ⟨u, hres⟩
    rcases get_reusable_some_spec hres with
      ⟨sel, l1, l2, hsplit, _, _, hu, hnum, _⟩
    rw [usesSum, usesSum, hnum, hsplit, hu]
    exact usesSum_split l1 l2 sel (markUsed now service sel) rfl

/-- Witness for C4 on a concrete pool with the duplicate-free invariant. -/
theorem mutators_preserve_invariants_witness :
    (∀ r ∈ (add_number brState "5511999990000" "73" "901" "go" 100).1.numbers,
      r.services.Nodup) ∧
    ((add_number brState "5511999990000" "73" "901" "go" 100).2 = true →
      usesSum (add_number brState "5511999990000" "73" "901" "go" 100).1 =
        usesSum brState + 1) ∧
    (∀ r ∈ (mark_number_used brState "5511999990000" "go" 100).1.numbers,
      r.services.Nodup) ∧
    ((mark_number_used brState "5511999990000" "go" 100).2 = true →
      usesSum (mark_number_used brState "5511999990000" "go" 100).1 =
        usesSum brState + 1) ∧
    (∀ r ∈ (get_reusable_number brState "go" 100).1.numbers,
      r.services.Nodup) ∧
    ((get_reusable_number brState "go" 100).2.isSome →
      usesSum (get_reusable_number brState "go" 100).1 =
        usesSum (cleanup_expired_numbers brState 100) + 1) ∧
    (∀ r, (touch 100 "go" r).times_used = r.times_used + 1) ∧
    (∀ r, (markUsed 100 "go" r).times_used = r.times_used + 1) :=
  mutators_preserve_invariants brState "5511999990000" "73" "901" "go" 100
    (by decide)

end ClaimC4

section ClaimC3

/-- C3: for every pool state and time `now`, `_cleanup_expired_numbers`
removes exactly the leases with `now - first_used ≥ reuse_window`
(`reuse_window` fixed at 30 minutes) and leaves every other lease in the
pool unchanged, in its original order. -/
theorem cleanup_removes_exactly_expired (s : PMState) (now : Int) :
    (∀ r, r ∈ (cleanup_expired_numbers s now).numbers ↔
      r ∈ s.numbers ∧ ¬ (now - r.first_used ≥ reuse_window)) ∧
    (cleanup_expired_numbers s now).numbers.Sublist s.numbers ∧
    reuse_window = 30 * 60 := by
  refine ⟨fun r => ?_, List.filter_sublist _, rfl⟩
  rw [mem_cleanup]
  constructor
  · exact fun ⟨h1, h2⟩ => ⟨h1, by omega⟩
  · exact fun ⟨h1, h2⟩ => ⟨h1, by omega⟩

end ClaimC3

section ClaimC10

/-- C10: if any of `phone_number`, `country_code`, `activation_id` is
falsy (the empty string), `add_number` returns `False` and leaves the
state completely untouched: same records and no save performed. -/
theorem add_number_rejects_incomplete (s : PMState)
    (phone country activation service : String) (now : Int)
    (h : phone = "" ∨ country = "" ∨ activation = "") :
    add_number s phone country activation service now = (s, false) := by
  rw [add_number, if_pos h]

/-- Witness for C10 at a concrete input. -/
theorem add_number_rejects_incomplete_witness :
    add_number ⟨[], 0⟩ "" "73" "900" "go" 5 = (⟨[], 0⟩, false) :=
  add_number_rejects_incomplete ⟨[], 0⟩ "" "73" "900" "go" 5 (Or.inl rfl)

end ClaimC10

section ClaimC5

/-- C5: the claim is right and the code is wrong. At the failing input —
an integer-count operation (such as the wrapped availability check) whose
three attempts all raise a connection error — `execute_with_retry` falls
off the retry loop and returns the literal empty mapping `{}` (its final
`return {}` line), not the zero its own docstring and the spec promise for
integer counts. -/
theorem execute_with_retry_exhaustion_returns_empty_dict :
    execute_with_retry (α := Nat) [.connError, .connError, .connError] 3 =
      (.emptyDict, 3, 2) ∧
    (RetryResult.emptyDict : RetryResult Nat) ≠ .zero :=
  ⟨rfl, by decide⟩

end ClaimC5

section ClaimC6

theorem execute_with_retry_calls_pos {α : Type}
    (trace : List (CallOutcome α)) (n : Nat) (h : 0 < n) :
    1 ≤ (execute_with_retry trace n).2.1 := by
  cases n with
  | zero => exact absurd h (by simp)
  | succ m =>
    rw [execute_with_retry]
    cases trace.headD CallOutcome.otherError with
    | ok a => simp
    | noneResult => simp
    | connError =>
      by_cases hm : m = 0
      · simp [hm]
      · simp [hm]
    | otherError => simp

/-- C6: `execute_with_retry` invokes the wrapped operation at most
`max_retries` times, and sleeping happens strictly between attempts: the
sleep count stays below both the number of invocations made and
`max_retries`, so no sleep follows the final attempt. -/
theorem execute_with_retry_bounds {α : Type} (trace : List (CallOutcome α))
    (max_retries : Nat) :
    (execute_with_retry trace max_retries).2.1 ≤ max_retries ∧
    (execute_with_retry trace max_retries).2.2 ≤
      (execute_with_retry trace max_retries).2.1 - 1 ∧
    (execute_with_retry trace max_retries).2.2 ≤ max_retries - 1 := by
  induction max_retries generalizing trace with
  | zero => simp [execute_with_retry]
  | succ n ih =>
    rw [execute_with_retry]
    cases trace.headD CallOutcome.otherError with
    | ok a => simp
    | noneResult => simp
    | connError =>
      by_cases hn : n = 0
      · simp [hn]
      · rw [if_neg hn]
        rcases hrec : execute_with_retry trace.tail n with ⟨r, c, sl⟩
        have hih := ih trace.tail
        rw [hrec] at hih
        simp only [Prod.snd, Prod.fst] at hih
        have hpos : 1 ≤ c := by
          have := execute_with_retry_calls_pos trace.tail n (Nat.pos_of_ne_zero hn)
          rw [hrec] at this
          exact this
        simp only [hrec]
        refine ⟨by omega, by omega, by omega⟩
    | otherError => simp

end ClaimC6

section ClaimC7

/-- C7 counterexample: with a budget of one forced-country attempt, an
availability call returning 0 consumes the whole budget — the loop ends
with zero purchase attempts and falls back to the alternative country,
even though the very next iteration (availability 5, purchase available)
would have bought a Brazilian number, as the budget-2 run shows. So a
zero-availability status call does consume one of the
`max_brazil_attempts`. -/
theorem brazilLoop_zero_check_consumes_budget :
    brazilLoop [0, 5] [some ("9001", "5511999990000")] 1 =
      (1, [], .fallback) ∧
    brazilLoop [0, 5] [some ("9001", "5511999990000")] 2 =
      (2, [("73", some ("9001", "5511999990000"))],
        .success "9001" "5511999990000") :=
  ⟨rfl, rfl⟩

/-- C7 amended: an availability call returning 0 skips the purchase
attempt for that iteration but still consumes one of the
`max_brazil_attempts` iterations; the loop runs at most that many
iterations, every purchase attempt belongs to an iteration, and the full
budget is always spent before falling back to the alternative country. -/
theorem brazilLoop_budget (avail : List Int)
    (buys : List (Option (String × String))) (n : Nat) :
    (brazilLoop avail buys n).1 ≤ n ∧
    (brazilLoop avail buys n).2.1.length ≤ (brazilLoop avail buys n).1 ∧
    ((brazilLoop avail buys n).2.2 = .fallback →
      (brazilLoop avail buys n).1 = n) ∧
    (0 < n → avail.headD 0 ≤ 0 →
      (brazilLoop avail buys n).2.1 =
        (brazilLoop avail.tail buys (n - 1)).2.1 ∧
      (brazilLoop avail buys n).1 =
        (brazilLoop avail.tail buys (n - 1)).1 + 1) := by
  induction n generalizing avail buys with
  | zero => simp [brazilLoop]
  | succ n ih =>
    by_cases ha : avail.headD 0 ≤ 0
    · rw [brazilLoop, if_pos ha]
      rcases hrec : brazilLoop avail.tail buys n with ⟨it, atts, r⟩
      have hih := ih avail.tail buys
      rw [hrec] at hih
      simp only [Prod.snd, Prod.fst] at hih
      simp only [hrec]
      refine ⟨by have := hih.1; omega,
        by have := hih.2.1; omega, ?_, ?_⟩
      · intro hf
        have := hih.2.2.1 (by simpa using hf)
        omega
      · intro _ _
        simp [hrec]
    · rw [brazilLoop, if_neg ha]
      cases hb : buys.headD none with
      | some pr =>
        refine ⟨by simp, by simp, ?_, ?_⟩
        · intro hf
          exact absurd hf (by simp)
        · intro _ h0
          exact absurd h0 ha
      | none =>
        rcases hrec : brazilLoop avail.tail buys.tail n with ⟨it, atts, r⟩
        have hih := ih avail.tail buys.tail
        rw [hrec] at hih
        simp only [Prod.snd, Prod.fst] at hih
        simp only [hrec]
        refine ⟨by have := hih.1; omega,
          by have := hih.2.1; simp only [List.length_cons]; omega, ?_, ?_⟩
        · intro hf
          have := hih.2.2.1 (by simpa using hf)
          omega
        · intro _ h0
          exact absurd h0 ha

/-- Witness for the amended C7: one zero-availability iteration consumes
the single attempt of the budget without a purchase. -/
theorem brazilLoop_budget_witness :
    (brazilLoop [0] [] 1).2.1 = (brazilLoop [] [] 0).2.1 ∧
    (brazilLoop [0] [] 1).1 = (brazilLoop [] [] 0).1 + 1 ∧
    (brazilLoop [0] [] 1).1 = 1 :=
  ⟨((brazilLoop_budget [0] [] 1).2.2.2 (by decide) (by decide)).1,
   ((brazilLoop_budget [0] [] 1).2.2.2 (by decide) (by decide)).2,
   (brazilLoop_budget [0] [] 1).2.2.1 rfl⟩

end ClaimC7

section ClaimC9

/-- C9: `get_sms_code` behaves exactly as the claim states: the first
terminating poll signal within `max_attempts` decides the outcome — a
received code is returned after a status-3 call, a remote cancellation
returns none immediately with no status call, and exhausting all attempts
without a code returns none after a status-6 (cancel) call. -/
theorem get_sms_code_matches_spec (trace : List PollOutcome) (n : Nat) :
    get_sms_code trace n = get_sms_code_spec trace n := by
  induction n generalizing trace with
  | zero => simp [get_sms_code, get_sms_code_spec]
  | succ n ih =>
    cases trace with
    | nil =>
      rw [get_sms_code]
      simp only [List.headD_nil, List.tail_nil]
      rw [ih]
      simp [get_sms_code_spec]
    | cons h t =>
      cases h with
      | okCode c =>
        rw [get_sms_code]
        simp [get_sms_code_spec, isSignal]
      | cancelled =>
        rw [get_sms_code]
        simp [get_sms_code_spec, isSignal]
      | other =>
        rw [get_sms_code]
        simp only [List.headD_cons, List.tail_cons]
        rw [ih]
        simp [get_sms_code_spec, isSignal]

end ClaimC9

section HelpersC8

/-- A purchase-attempt list whose every element but the last failed
contains at most one success. -/
theorem filter_isSome_le_one {l : List Attempt}
    (h : ∀ x ∈ l.dropLast, x.2 = none) :
    (l.filter (fun x => x.2.isSome)).length ≤ 1 := by
  induction l with
  | nil => simp
  | cons a as ih =>
    cases as with
    | nil =>
      rw [List.filter]
      cases ha : (a.2.isSome : Bool) <;> simp
    | cons b bs =>
      have ha : a.2 = none := h a (by
        rw [List.dropLast_cons₂]
        exact List.mem_cons_self ..)
      have h' : ∀ x ∈ (b :: bs).dropLast, x.2 = none := fun x hx =>
        h x (by rw [List.dropLast_cons₂]; exact List.mem_cons_of_mem _ hx)
      rw [List.filter_cons, if_neg (by simp [ha])]
      exact ih h'

/-- Structure of the forced-Brazil loop's purchase attempts: every attempt
targets "73", only the last attempt can succeed, a fallback exit means
every attempt failed, and the loop reports success exactly when its final
attempt succeeded. -/
theorem brazilLoop_attempts (avail : List Int)
    (buys : List (Option (String × String))) (n : Nat) :
    (∀ x ∈ (brazilLoop avail buys n).2.1, x.1 = "73") ∧
    (∀ x ∈ (brazilLoop avail buys n).2.1.dropLast, x.2 = none) ∧
    ((brazilLoop avail buys n).2.2 = .fallback →
      ∀ x ∈ (brazilLoop avail buys n).2.1, x.2 = none) ∧
    (∀ a p, (brazilLoop avail buys n).2.2 = .success a p ↔
      (brazilLoop avail buys n).2.1.getLast? = some ("73", some (a, p))) := by
  induction n generalizing avail buys with
  | zero => simp [brazilLoop]
  | succ n ih =>
    by_cases ha : avail.headD 0 ≤ 0
    · rw [brazilLoop, if_pos ha]
      rcases hrec : brazilLoop avail.tail buys n with ⟨it, atts, r⟩
      have hih := ih avail.tail buys
      rw [hrec] at hih
      simp only [hrec]
      exact hih
    · rw [brazilLoop, if_neg ha]
      cases hb : buys.headD none with
      | some pr =>
        refine ⟨?_, by simp, ?_, ?_⟩
        · intro x hx
          simp only [List.mem_singleton] at hx
          rw [hx]
        · intro hf
          simp at hf
        · intro a p
          simp [Prod.ext_iff, GoOutcome.success.injEq]
      | none =>
        rcases hrec : brazilLoop avail.tail buys.tail n with ⟨it, atts, r⟩
        have hih := ih avail.tail buys.tail
        rw [hrec] at hih
        simp only [Prod.snd, Prod.fst] at hih
        simp only [hrec]
        refine ⟨?_, ?_, ?_, ?_⟩
        · intro x hx
          rcases List.mem_cons.1 hx with rfl | hx2
          · rfl
          · exact hih.1 x hx2
        · intro x hx
          cases atts with
          | nil => simp at hx
          | cons z zs =>
            rw [List.dropLast_cons₂] at hx
            rcases List.mem_cons.1 hx with rfl | hx2
            · rfl
            · exact hih.2.1 x hx2
        · intro hf x hx
          rcases List.mem_cons.1 hx with rfl | hx2
          · rfl
          · exact hih.2.2.1 hf x hx2
        · intro a p
          cases atts with
          | nil =>
            rw [hih.2.2.2 a p]
            simp
          | cons z zs =>
            rw [List.getLast?_cons_cons]
            exact hih.2.2.2 a p

theorem chooseCountry_pos {avail : List Int} {country : String}
    (h : 0 < avail.headD 0) : chooseCountry avail country = "73" := by
  rw [chooseCountry, if_pos h]

theorem chooseCountry_nonpos {avail : List Int} {country : String}
    (h : ¬ 0 < avail.headD 0) : chooseCountry avail country = country := by
  rw [chooseCountry, if_neg h]

/-- Structure of `buy_number`'s purchase attempts for service "go": the
attempted-country sequence is a block of Brazil attempts optionally
followed by one attempt on the alternative country, only the last attempt
can succeed, a `none` result means every attempt failed, and the call
returns a number exactly when its final attempt succeeded. -/
theorem buy_number_go_attempts (avail : List Int)
    (buys : List (Option (String × String))) (country : String)
    (fuel : Nat) :
    (∃ k, (buy_number_go avail buys country fuel).1.map Prod.fst =
        List.replicate k "73" ∨
      (buy_number_go avail buys country fuel).1.map Prod.fst =
        List.replicate k "73" ++ [country]) ∧
    (∀ x ∈ (buy_number_go avail buys country fuel).1.dropLast, x.2 = none) ∧
    ((buy_number_go avail buys country fuel).2 = none →
      ∀ x ∈ (buy_number_go avail buys country fuel).1, x.2 = none) ∧
    (∀ v, (buy_number_go avail buys country fuel).2 = some v ↔
      ∃ c, (buy_number_go avail buys country fuel).1.getLast? =
        some (c, some v)) := by
  induction fuel generalizing avail buys with
  | zero =>
    exact ⟨⟨0, Or.inl rfl⟩, by simp [buy_number_go], by simp [buy_number_go],
      fun v => by simp [buy_number_go]⟩
  | succ fuel ih =>
    cases hb : buys.headD none with
    | some pr =>
      have hfn : buy_number_go avail buys country (fuel + 1) =
          ([(chooseCountry avail country, some pr)], some pr) := by
        rw [buy_number_go, hb]
      rw [hfn]
      refine ⟨?_, by simp, by simp, ?_⟩
      · by_cases hav : 0 < avail.headD 0
        · exact ⟨1, Or.inl (by simp [chooseCountry_pos hav])⟩
        · exact ⟨0, Or.inr (by simp [chooseCountry_nonpos hav])⟩
      · intro v
        constructor
        · intro hv
          exact ⟨chooseCountry avail country,
            by simp [Option.some_inj.1 hv]⟩
        · rintro ⟨c, hc⟩
          simp only [List.getLast?_singleton, Option.some_inj,
            Prod.mk.injEq] at hc
          rw [hc.2]
    | none =>
      by_cases hcc : chooseCountry avail country = "73" ∧ country ≠ "73"
      · have hfn : buy_number_go avail buys country (fuel + 1) =
            ((chooseCountry avail country, none) ::
              (buy_number_go avail.tail buys.tail country fuel).1,
             (buy_number_go avail.tail buys.tail country fuel).2) := by
          rw [buy_number_go, hb, if_pos hcc]
        rw [hfn]
        rcases hrec : buy_number_go avail.tail buys.tail country fuel with
          ⟨atts, res⟩
        have hih := ih avail.tail buys.tail
        rw [hrec] at hih
        simp only [Prod.snd, Prod.fst] at hih
        simp only [hrec]
        refine ⟨?_, ?_, ?_, ?_⟩
        · rcases hih.1 with ⟨k, hk | hk⟩
          · exact ⟨k + 1, Or.inl (by
              simp only [List.map_cons, hk, hcc.1, List.replicate_succ])⟩
          · exact ⟨k + 1, Or.inr (by
              simp only [List.map_cons, hk, hcc.1, List.replicate_succ,
                List.cons_append])⟩
        · intro x hx
          cases atts with
          | nil => simp at hx
          | cons z zs =>
            rw [List.dropLast_cons₂] at hx
            rcases List.mem_cons.1 hx with rfl | hx2
            · rfl
            · exact hih.2.1 x hx2
        · intro hres x hx
          rcases List.mem_cons.1 hx with rfl | hx2
          · rfl
          · exact hih.2.2.1 hres x hx2
        · intro v
          cases atts with
          | nil =>
            rw [hih.2.2.2 v]
            simp
          | cons z zs =>
            rw [List.getLast?_cons_cons]
            exact hih.2.2.2 v
      · have hfn : buy_number_go avail buys country (fuel + 1) =
            ([(chooseCountry avail country, none)], none) := by
          rw [buy_number_go, hb, if_neg hcc]
        rw [hfn]
        refine ⟨?_, by simp, ?_, ?_⟩
        · by_cases hav : 0 < avail.headD 0
          · exact ⟨1, Or.inl (by simp [chooseCountry_pos hav])⟩
          · exact ⟨0, Or.inr (by simp [chooseCountry_nonpos hav])⟩
        · intro _ x hx
          simp only [List.mem_singleton] at hx
          rw [hx]
        · intro v
          simp

end HelpersC8

section ClaimC8

/-- C8: the acquisition flow for service "go" (`buy_number_with_retry`
composed of the forced-Brazil loop and `buy_number` on the alternative
country) attempts countries in the configured priority order — a block of
Brazil ("73", the head of `country_priority`) purchase attempts followed
by at most one attempt on the alternative country; every attempt before
the last one fails, and the flow returns a number exactly when its final
purchase attempt succeeded — hence it never completes two provider
purchases for a single request. -/
theorem acquisition_priority_order (availB : List Int)
    (buysB : List (Option (String × String))) (availN : List Int)
    (buysN : List (Option (String × String))) (country : String)
    (maxAttempts fuel : Nat) :
    (∃ k,
      (buy_number_with_retry_go availB buysB availN buysN country maxAttempts
        fuel).2.1.map Prod.fst = List.replicate k "73" ∨
      (buy_number_with_retry_go availB buysB availN buysN country maxAttempts
        fuel).2.1.map Prod.fst = List.replicate k "73" ++ [country]) ∧
    (∀ x ∈ (buy_number_with_retry_go availB buysB availN buysN country
        maxAttempts fuel).2.1.dropLast, x.2 = none) ∧
    (∀ v, (buy_number_with_retry_go availB buysB availN buysN country
        maxAttempts fuel).2.2 = some v ↔
      ∃ c, (buy_number_with_retry_go availB buysB availN buysN country
        maxAttempts fuel).2.1.getLast? = some (c, some v)) ∧
    ((buy_number_with_retry_go availB buysB availN buysN country maxAttempts
        fuel).2.1.filter (fun x => x.2.isSome)).length ≤ 1 := by
  rcases hbr : brazilLoop availB buysB maxAttempts with ⟨it, attsB, r⟩
  have hbra := brazilLoop_attempts availB buysB maxAttempts
  rw [hbr] at hbra
  simp only [Prod.snd, Prod.fst] at hbra
  cases r with
  | success a p =>
    have hfn : buy_number_with_retry_go availB buysB availN buysN country
        maxAttempts fuel = (it, attsB, some (a, p)) := by
      rw [buy_number_with_retry_go, hbr]
    rw [hfn]
    have hlast : attsB.getLast? = some ("73", some (a, p)) :=
      (hbra.2.2.2 a p).1 rfl
    refine ⟨⟨(attsB.map Prod.fst).length, Or.inl ?_⟩, hbra.2.1, ?_,
      filter_isSome_le_one hbra.2.1⟩
    · exact List.eq_replicate_of_mem fun b hbm => by
        rcases List.mem_map.1 hbm with ⟨x, hx, rfl⟩
        exact hbra.1 x hx
    · intro v
      constructor
      · intro hv
        exact ⟨"73", by rw [hlast, Option.some_inj.1 hv]⟩
      · rintro ⟨c, hc⟩
        rw [hlast] at hc
        simp only [Option.some_inj, Prod.mk.injEq] at hc
        rw [hc.2]
  | fallback =>
    have hfn : buy_number_with_retry_go availB buysB availN buysN country
        maxAttempts fuel =
        (it, attsB ++ (buy_number_go availN buysN country fuel).1,
         (buy_number_go availN buysN country fuel).2) := by
      rw [buy_number_with_retry_go, hbr]
    rw [hfn]
    rcases hgo : buy_number_go availN buysN country fuel with ⟨attsN, res⟩
    have hgoa := buy_number_go_attempts availN buysN country fuel
    rw [hgo] at hgoa
    simp only [Prod.snd, Prod.fst] at hgoa
    simp only [hgo]
    have hBnone : ∀ x ∈ attsB, x.2 = none := hbra.2.2.1 rfl
    have hBrep : attsB.map Prod.fst = List.replicate attsB.length "73" := by
      have h0 : attsB.map Prod.fst =
          List.replicate (attsB.map Prod.fst).length "73" :=
        List.eq_replicate_of_mem fun b hbm => by
          rcases List.mem_map.1 hbm with ⟨x, hx, rfl⟩
          exact hbra.1 x hx
      simpa using h0
    have hdl : ∀ x ∈ (attsB ++ attsN).dropLast, x.2 = none := by
      intro x hx
      cases hN : attsN with
      | nil =>
        rw [hN, List.append_nil] at hx
        exact hBnone x ((List.dropLast_sublist attsB).subset hx)
      | cons z zs =>
        rw [hN, List.dropLast_append_cons] at hx
        rcases List.mem_append.1 hx with h1 | h1
        · exact hBnone x h1
        · exact hgoa.2.1 x (by rw [hN]; exact h1)
    refine ⟨?_, hdl, ?_, filter_isSome_le_one hdl⟩
    · rcases hgoa.1 with ⟨k, hk | hk⟩
      · refine ⟨attsB.length + k, Or.inl ?_⟩
        rw [List.map_append, hk, List.replicate_add, hBrep]
      · refine ⟨attsB.length + k, Or.inr ?_⟩
        rw [List.map_append, hk, List.replicate_add, hBrep,
          List.append_assoc]
    · intro v
      cases hN : attsN with
      | nil =>
        subst hN
        rw [List.append_nil]
        constructor
        · intro hv
          rcases (hgoa.2.2.2 v).1 hv with ⟨c, hc⟩
          simp at hc
        · rintro ⟨c, hc⟩
          have hmem := List.mem_of_getLast?_eq_some hc
          have := hBnone _ hmem
          simp at this
      | cons z zs =>
        subst hN
        rw [List.getLast?_append_of_ne_nil _ (by simp)]
        exact hgoa.2.2.2 v

/-- Witness for C8: a run whose single zero-availability Brazil
iteration falls back and buys on the first alternative-country attempt —
one successful final attempt, at most one purchase overall. -/
theorem acquisition_priority_order_witness :
    (∃ c, (buy_number_with_retry_go [0] [] [5] [some ("9001", "555111")]
      "187" 1 3).2.1.getLast? = some (c, some ("9001", "555111"))) ∧
    ((buy_number_with_retry_go [0] [] [5] [some ("9001", "555111")]
      "187" 1 3).2.1.filter (fun x => x.2.isSome)).length ≤ 1 :=
  ⟨((acquisition_priority_order [0] [] [5] [some ("9001", "555111")]
      "187" 1 3).2.2.1 ("9001", "555111")).1 rfl,
   (acquisition_priority_order [0] [] [5] [some ("9001", "555111")]
      "187" 1 3).2.2.2⟩

end ClaimC8

end PhonePool
